import Mathlib

/-!
Verification of the `folder` adapter: a two-pass scanner that walks virtual
file trees, buckets candidate media files per directory (pass one), links
images, motion videos and metadata sidecars into asset groups (pass two),
materializes assets through a metadata reader and stat, applies date-range
and album configuration, and streams the resulting groups.

The Go source is embedded shallowly: pure string manipulation is translated
to Lean functions on `String`/`List Char`; the external collaborators
(file-system walk order, metadata reader, stat, exif-tool initialization)
become explicit parameters; the Go map used for the per-directory link set
is modelled as an association list together with an explicit iteration-order
parameter `pi` standing for Go's (unspecified) map range order; the event
recorder becomes an accumulated list of events; the streaming channel
becomes the ordered list of emitted groups plus an abort flag (the pass-two
goroutine's early `return`).  The cancellation context is modelled as never
cancelled, since none of the verified properties concern cancellation.
-/

namespace Folder

/-! ### String ordering (Go `sort.Strings`) -/

/-- Lexicographic comparison of character lists, the order used by Go's
`sort.Strings` (byte order; identical on the ASCII names involved). -/
def goChars : List Char → List Char → Bool
  | [], _ => true
  | _ :: _, [] => false
  | c :: cs, d :: ds => if c = d then goChars cs ds else decide (c < d)

/-- `strLe a b` holds when `a` sorts before or equal to `b`. -/
def strLe (a b : String) : Prop := goChars a.data b.data = true

instance : DecidableRel strLe := fun a b => by
  unfold strLe; infer_instance

/-- Model of Go's `sort.Strings`: a sort of the list by `strLe`.  (Sorting a
list of strings has a unique result, so any correct sort is extensionally
the routine the source calls.) -/
def sortStrings (l : List String) : List String := l.insertionSort strLe

/-! ### Path helpers (Go `path/filepath` on slash-separated fs.FS names) -/

/-- Split a character list on a separator character, keeping empty segments
(the behaviour of Go `strings.Split` with a one-character separator). -/
def splitChar (sep : Char) : List Char → List (List Char)
  | [] => [[]]
  | c :: rest =>
    match splitChar sep rest with
    | [] => [[c]]
    | g :: gs => if c = sep then [] :: g :: gs else (c :: g) :: gs

/-- `strings.Split s (String.singleton sep)`. -/
def splitOnChar (sep : Char) (s : String) : List String :=
  (splitChar sep s.data).map String.mk

/-- Go `filepath.Base` for the cleaned, relative, slash-separated names
produced by `fs.WalkDir`: the final path component. -/
def basePath (s : String) : String :=
  (splitOnChar '/' s).getLastD s

/-- Go `filepath.Dir` for such names: everything before the final slash, or
`"."` when there is no slash.  This also models the `filepath.Split` +
`TrimSuffix "/"` + empty-check sequence of pass one. -/
def dirPath (s : String) : String :=
  match (splitOnChar '/' s).dropLast with
  | [] => "."
  | parts => String.intercalate "/" parts

/-- Go `filepath.Ext` / `path.Ext`: the suffix of the final path component
starting at its last dot, or `""` when it has none. -/
def extOf (s : String) : String :=
  match splitChar '.' (basePath s).data with
  | [] => ""
  | [_] => ""
  | g :: gs => "." ++ String.mk ((g :: gs).getLastD [])

/-- Go `strings.TrimSuffix`. -/
def trimSuffix (s suf : String) : String :=
  if suf.data.isSuffixOf s.data then s.dropRight suf.length else s

/-- A filename with its extension stripped, the "base key" used throughout
the pass-two matching (`strings.TrimSuffix(f, path.Ext(f))`). -/
def stripExt (f : String) : String := trimSuffix f (extOf f)

/-! ### Data model -/

/-- `metadata.Type*`: the media kind assigned by the classifier. -/
inductive MediaType
  | image | video | sidecar | unknown
deriving DecidableEq, Repr

/-- `FolderMode*`: the album-naming mode. -/
inductive FolderMode
  | none | folder | path
deriving DecidableEq, Repr

/-- `ImportFlags`, with the externally implemented helpers
(`BannedFiles.Match`, `SupportedMedia.TypeFromExt`, the extension
include/exclude lists and the date range) abstracted as functions. -/
structure ImportFlags where
  recursive : Bool
  bannedFiles : String → Bool
  typeFromExt : String → MediaType
  ignoreSideCarFiles : Bool
  includeExt : String → Bool
  excludeExt : String → Bool
  dateRangeSet : Bool
  dateInRange : Int → Bool
  importIntoAlbum : String
  usePathAsAlbumName : FolderMode
  albumNamePathSeparator : String
  useExifTool : Bool

/-- The kinds recorded by the `fileevent.Recorder`. -/
inductive EvKind
  | discoveredImage | discoveredVideo | discoveredSidecar | discoveredUnsupported
  | discoveredDiscarded | associatedMetadata | error
deriving DecidableEq, Repr

/-- One record sent to the event recorder: kind, file name, and the optional
reason / error message / sidecar name argument. -/
structure Event where
  kind : EvKind
  name : String
  info : Option String := Option.none
deriving DecidableEq, Repr

/-- One entry yielded by `fs.WalkDir`, in visit order. -/
inductive WalkEntry
  | dir (name : String)
  | file (name : String)
deriving DecidableEq, Repr

/-- The path of a walk entry. -/
def WalkEntry.name : WalkEntry → String
  | .dir n => n
  | .file n => n

/-- One input tree (`fs.FS` plus its `fshelper.NameFS` name), with the
external effects the scan performs on it made explicit: the walk result,
`LocalAssetFile.ReadMetadata` (returning the derived date taken) and
`fs.Stat` (returning the size). -/
structure Tree where
  name : String
  entries : List WalkEntry
  walkErr : Option String := Option.none
  readMeta : String → Except String Int
  stat : String → Except String Nat

/-- Per-tree catalog: directory path to candidate file bucket. -/
abbrev Catalog := List (String × List String)

/-! ### Association-list operations (Go map reads/writes) -/

/-- Go map read `m[k]` returning `(value, ok)`. -/
def lookupA {β : Type} : List (String × β) → String → Option β
  | [], _ => Option.none
  | p :: rest, k => if p.1 = k then some p.2 else lookupA rest k

/-- Go map write `m[k] = v`. -/
def insertA {β : Type} : List (String × β) → String → β → List (String × β)
  | [], k, v => [(k, v)]
  | p :: rest, k, v => if p.1 = k then (k, v) :: rest else p :: insertA rest k v

/-- The key set of an association list (`gen.MapKeys`, before sorting). -/
def keysA {β : Type} (l : List (String × β)) : List String := l.map (·.1)

/-! ### Pass one (`passOneFsWalk`) -/

/-- Whether path `n` lies strictly below directory `d` (used to model
`fs.SkipDir` pruning a subtree from the walk). -/
def isUnder (d n : String) : Bool := (d ++ "/").data.isPrefixOf n.data

/-- The extension include/exclude checks at the tail of the pass-one file
case, appending the surviving file to its directory bucket. -/
def p1Include (flags : ImportFlags) (cat : Catalog) (evs : List Event)
    (name dir ext : String) : Catalog × List Event :=
  if flags.includeExt ext = false then
    (cat, evs ++ [⟨.discoveredDiscarded, name, some "extension not included"⟩])
  else if flags.excludeExt ext then
    (cat, evs ++ [⟨.discoveredDiscarded, name, some "extension excluded"⟩])
  else
    let bucket := (lookupA cat dir).getD []
    (insertA cat dir (bucket ++ [name]), evs)

/-- The pass-one walk callback for a file: banned-name check, classification,
discovery events, sidecar-ignore check, then `p1Include`. -/
def p1File (flags : ImportFlags) (cat : Catalog) (evs : List Event)
    (name : String) : Catalog × List Event :=
  if flags.bannedFiles name then
    (cat, evs ++ [⟨.discoveredDiscarded, name, some "banned file"⟩])
  else
    let dir := dirPath name
    let ext := extOf name
    match flags.typeFromExt ext with
    | .unknown =>
      (cat, evs ++ [⟨.discoveredUnsupported, name, some "unsupported file type"⟩])
    | .image =>
      p1Include flags cat (evs ++ [⟨.discoveredImage, name, Option.none⟩]) name dir ext
    | .video =>
      p1Include flags cat (evs ++ [⟨.discoveredVideo, name, Option.none⟩]) name dir ext
    | .sidecar =>
      let evs := evs ++ [⟨.discoveredSidecar, name, Option.none⟩]
      if flags.ignoreSideCarFiles then
        (cat, evs ++ [⟨.discoveredDiscarded, name, some "sidecar file ignored"⟩])
      else
        p1Include flags cat evs name dir ext

/-- Whether path `n` lies below any of the pruned directories. -/
def underAny (skips : List String) (n : String) : Bool :=
  skips.any (fun d => isUnder d n)

/-- The pass-one walk over the entry list: directories register an empty
bucket, or — when recursion is off and the directory is not the root —
prune their whole subtree (`fs.SkipDir`, modelled by the `skips` list of
pruned directory paths: every later entry below one of them is dropped,
exactly the entries `fs.WalkDir` would not yield).  Files go through
`p1File`. -/
def p1Walk (flags : ImportFlags) : List WalkEntry → List String → Catalog →
    List Event → Catalog × List Event
  | [], _, cat, evs => (cat, evs)
  | WalkEntry.dir name :: rest, skips, cat, evs =>
    if underAny skips name then p1Walk flags rest skips cat evs
    else if flags.recursive = false ∧ name ≠ "." then
      p1Walk flags rest (name :: skips) cat evs
    else
      p1Walk flags rest skips (insertA cat name []) evs
  | WalkEntry.file name :: rest, skips, cat, evs =>
    if underAny skips name then p1Walk flags rest skips cat evs
    else
      let r := p1File flags cat evs name
      p1Walk flags rest skips r.1 r.2

/-- `passOneFsWalk`: a tree-enumeration I/O failure surfaces as an error,
otherwise the walk produces the tree's catalog and its events. -/
def passOneFsWalk (flags : ImportFlags) (t : Tree) :
    Except String (Catalog × List Event) :=
  match t.walkErr with
  | some e => .error e
  | Option.none => .ok (p1Walk flags t.entries [] [] [])

/-! ### Pass two, link building -/

/-- `fileLinks`: the per-key link record (`""` is Go's absent zero value). -/
structure fileLinks where
  image : String := ""
  video : String := ""
  sidecar : String := ""
deriving DecidableEq, Repr

/-- The per-directory link set (Go `map[string]fileLinks`), as an
association list.  Lookups and updates go through `lookupA`/`insertA`; the
unspecified order of a Go `for ... range` over the map is supplied
separately by an iteration-order parameter. -/
abbrev Links := List (String × fileLinks)

/-- First sub-pass of pass two: every image becomes its own entry, keyed by
its full name, with `image` set to itself. -/
def scanImages (flags : ImportFlags) (files : List String) : Links :=
  files.foldl
    (fun links file =>
      if flags.typeFromExt (extOf file) = .image then
        let linked := (lookupA links file).getD {}
        insertA links file { linked with image := file }
      else links)
    []

/-- The fallback-scan predicate of the second sub-pass, tested against each
existing key `k` while ranging over the map.  For a sidecar `file` the loop
tests `TrimSuffix(k, Ext(k)) == base`; for a video it tests that and, in the
same iteration, `TrimSuffix(k, Ext(k)) == file` — both video tests perform
the identical attachment, so one disjunctive predicate captures the loop. -/
def fbMatch (flags : ImportFlags) (file k : String) : Bool :=
  let base := trimSuffix file (extOf file)
  match flags.typeFromExt (extOf file) with
  | .sidecar => stripExt k == base
  | .video => stripExt k == base || stripExt k == file
  | _ => false

/-- One iteration of the second sub-pass (`next:` loop) for one non-image
candidate `file`, with `pi` the map iteration order used by the fallback
scan.  NOTE the video exact-key branch: the source assigns the matched
entry's `sidecar` field (folder.go, `image.sidecar = file` under
`case metadata.TypeVideo`), not its `video` field. -/
def linkOne (flags : ImportFlags) (pi : List String → List String)
    (links : Links) (file : String) : Links :=
  let ext := extOf file
  match flags.typeFromExt ext with
  | .image => links
  | .unknown => links
  | .sidecar =>
    let base := trimSuffix file ext
    match lookupA links base with
    | some image => insertA links base { image with sidecar := file }
    | Option.none =>
      match (pi (keysA links)).find? (fbMatch flags file) with
      | some f =>
        match lookupA links f with
        | some image => insertA links f { image with sidecar := file }
        | Option.none => links
      | Option.none => links
  | .video =>
    let base := trimSuffix file ext
    match lookupA links base with
    | some image => insertA links base { image with sidecar := file }
    | Option.none =>
      match (pi (keysA links)).find? (fbMatch flags file) with
      | some f =>
        match lookupA links f with
        | some image => insertA links f { image with video := file }
        | Option.none => links
      | Option.none => insertA links file { video := file }

/-- Both sub-passes over one directory's candidate list. -/
def buildLinks (flags : ImportFlags) (pi : List String → List String)
    (files : List String) : Links :=
  files.foldl (linkOne flags pi) (scanImages flags files)

/-! ### Asset materializer (`assetFromFile`) -/

/-- `adapters.LocalAssetFile`, reduced to the fields the scan populates. -/
structure LocalAssetFile where
  fileName : String
  title : String
  fileSize : Nat := 0
  dateTaken : Int := 0
deriving DecidableEq, Repr

/-- The outcome of `assetFromFile`: its recorded events, the returned handle
and error (at most one of the two set), and whether `a.Close()` ran. -/
structure AFRes where
  events : List Event := []
  asset : Option LocalAssetFile := Option.none
  err : Option String := Option.none
  closed : Bool := false
deriving DecidableEq, Repr

/-- `assetFromFile`: read metadata, stat, then the date-range filter.  A
metadata or stat failure closes the handle and returns the error; an
out-of-range date closes the handle, records a discard event and returns
neither handle nor error; otherwise the open handle is returned. -/
def assetFromFile (flags : ImportFlags) (t : Tree) (name : String) : AFRes :=
  match t.readMeta name with
  | .error e => { err := some e, closed := true }
  | .ok dt =>
    match t.stat name with
    | .error e => { err := some e, closed := true }
    | .ok sz =>
      if flags.dateRangeSet && !(flags.dateInRange dt) then
        { events := [⟨.discoveredDiscarded, name, some "asset outside date range"⟩],
          closed := true }
      else
        { asset := some { fileName := name, title := basePath name,
                          fileSize := sz, dateTaken := dt } }

/-! ### Groups, albums and the resolution loop -/

/-- `adapters.GroupKind`. -/
inductive GroupKind
  | none | motionPhoto
deriving DecidableEq, Repr

/-- `adapters.LocalAlbum`. -/
structure LocalAlbum where
  path : String
  title : String
deriving DecidableEq, Repr

/-- `adapters.AssetGroup`, with the sidecar reference reduced to its file
name (the tree is the group's own tree). -/
structure AssetGroup where
  kind : GroupKind
  assets : List LocalAssetFile
  coverIndex : Nat := 0
  sideCar : Option String := Option.none
  albums : List LocalAlbum := []
deriving DecidableEq, Repr

/-- The album-option block at the end of the resolution loop: fixed
import-into-album override, else Folder mode (parent directory's base name,
falling back to the tree name at tree root), else Path mode (tree name plus
every directory segment, joined by the configured separator). -/
def albumsFor (flags : ImportFlags) (treeName fileName : String) :
    List LocalAlbum :=
  if flags.importIntoAlbum ≠ "" then
    [{ path := fileName, title := flags.importIntoAlbum }]
  else
    match flags.usePathAsAlbumName with
    | .none => []
    | .folder =>
      let t0 := basePath (dirPath fileName)
      let title := if t0 = "." then treeName else t0
      if title ≠ "" then [{ path := fileName, title := title }] else []
    | .path =>
      let p := dirPath fileName
      let parts := [treeName] ++ (if p ≠ "." then splitOnChar '/' p else [])
      [{ path := p,
         title := String.intercalate flags.albumNamePathSeparator parts }]

/-- `errFn`: record an error event only when an error is present. -/
def errFn (name : String) (e : Option String) : List Event :=
  match e with
  | some msg => [⟨.error, name, some msg⟩]
  | Option.none => []

/-- Sidecar attachment and album assignment applied to a built group, with
`primary` the asset `a` the source references at that point. -/
def finishGroup (flags : ImportFlags) (treeName : String)
    (primary : LocalAssetFile) (linked : fileLinks) (g : AssetGroup) :
    List Event × AssetGroup :=
  let scEvs :=
    if linked.sidecar ≠ "" then
      [⟨EvKind.associatedMetadata, primary.fileName, some linked.sidecar⟩]
    else []
  let g := if linked.sidecar ≠ "" then { g with sideCar := some linked.sidecar } else g
  (scEvs, { g with albums := g.albums ++ albumsFor flags treeName primary.fileName })

/-- The result of resolving one link-set entry: its events, the group it
emits (if any), and whether the pass-two task returned early (the `return`
after a primary materialization error). -/
structure EntryRes where
  events : List Event := []
  group : Option AssetGroup := Option.none
  abort : Bool := false
deriving DecidableEq, Repr

/-- The body of the pass-two resolution loop for one entry. -/
def resolveEntry (flags : ImportFlags) (t : Tree) (linked : fileLinks) :
    EntryRes :=
  if linked.image ≠ "" ∧ linked.video ≠ "" then
    let ra := assetFromFile flags t linked.image
    match ra.err, ra.asset with
    | some e, _ => { events := ra.events ++ errFn linked.image (some e), abort := true }
    | Option.none, Option.none => { events := ra.events }
    | Option.none, some a =>
      let ri := assetFromFile flags t linked.video
      match ri.asset with
      | some i =>
        let g : AssetGroup := { kind := .motionPhoto, assets := [a, i], coverIndex := 0 }
        let r := finishGroup flags t.name a linked g
        { events := ra.events ++ ri.events ++ r.1, group := some r.2 }
      | Option.none =>
        let g : AssetGroup := { kind := .none, assets := [a] }
        let r := finishGroup flags t.name a linked g
        { events := ra.events ++ ri.events ++ errFn linked.video ri.err ++ r.1,
          group := some r.2 }
  else if linked.image ≠ "" then
    let ra := assetFromFile flags t linked.image
    match ra.err, ra.asset with
    | some e, _ => { events := ra.events ++ errFn linked.image (some e), abort := true }
    | Option.none, Option.none => { events := ra.events }
    | Option.none, some a =>
      let g : AssetGroup := { kind := .none, assets := [a], coverIndex := 0 }
      let r := finishGroup flags t.name a linked g
      { events := ra.events ++ r.1, group := some r.2 }
  else if linked.video ≠ "" then
    let ra := assetFromFile flags t linked.video
    match ra.err, ra.asset with
    | some e, _ => { events := ra.events ++ errFn linked.video (some e), abort := true }
    | Option.none, Option.none => { events := ra.events }
    | Option.none, some a =>
      let g : AssetGroup := { kind := .none, assets := [a], coverIndex := 0 }
      let r := finishGroup flags t.name a linked g
      { events := ra.events ++ r.1, group := some r.2 }
  else
    {}

/-- The resolution loop over the sorted entry keys: events accumulate, each
emitted group is pushed in order, and a primary failure stops the whole
task (no further entries are processed). -/
def processEntries (flags : ImportFlags) (t : Tree) (links : Links) :
    List String → List Event × List AssetGroup × Bool
  | [] => ([], [], false)
  | key :: rest =>
    let linked := (lookupA links key).getD {}
    let r := resolveEntry flags t linked
    if r.abort then (r.events, [], true)
    else
      let rec' := processEntries flags t links rest
      (r.events ++ rec'.1, r.group.toList ++ rec'.2.1, rec'.2.2)

/-- Pass two for one directory's candidate list: build the link set, then
resolve its entries in sorted key order. -/
def passTwoDir (flags : ImportFlags) (pi : List String → List String)
    (t : Tree) (files : List String) : List Event × List AssetGroup × Bool :=
  let links := buildLinks flags pi files
  processEntries flags t links (sortStrings (keysA links))

/-- Pass two over a tree's directories, in the order given (the caller
passes them sorted); empty buckets are skipped, an abort stops the task. -/
def passTwoDirs (flags : ImportFlags) (pi : List String → List String)
    (t : Tree) (cat : Catalog) :
    List String → List Event × List AssetGroup × Bool
  | [] => ([], [], false)
  | dir :: rest =>
    let files := (lookupA cat dir).getD []
    if files.isEmpty then passTwoDirs flags pi t cat rest
    else
      let r := passTwoDir flags pi t files
      if r.2.2 then r
      else
        let r2 := passTwoDirs flags pi t cat rest
        (r.1 ++ r2.1, r.2.1 ++ r2.2.1, r2.2.2)

/-- Pass two for one tree: directories in lexicographic order. -/
def passTwoTree (flags : ImportFlags) (pi : List String → List String)
    (t : Tree) (cat : Catalog) : List Event × List AssetGroup × Bool :=
  passTwoDirs flags pi t cat (sortStrings (keysA cat))

/-- Pass two over all trees, in their given order. -/
def passTwoAll (flags : ImportFlags) (pi : List String → List String) :
    List (Tree × Catalog) → List Event × List AssetGroup × Bool
  | [] => ([], [], false)
  | (t, cat) :: rest =>
    let r := passTwoTree flags pi t cat
    if r.2.2 then r
    else
      let r2 := passTwoAll flags pi rest
      (r.1 ++ r2.1, r.2.1 ++ r2.2.1, r2.2.2)

/-! ### Top level (`NewLocalFiles`, `Browse`) -/

/-- The pass-one loop of `Browse`: each tree is walked in turn, the first
error is returned to the caller unchanged. -/
def browseP1 (flags : ImportFlags) :
    List Tree → Except String (List (Tree × Catalog) × List Event)
  | [] => .ok ([], [])
  | t :: rest =>
    match passOneFsWalk flags t with
    | .error e => .error e
    | .ok (cat, evs) =>
      match browseP1 flags rest with
      | .error e => .error e
      | .ok (pairs, evs2) => .ok ((t, cat) :: pairs, evs ++ evs2)

/-- The observable outcome of a `Browse` call: all recorded events, the
groups emitted on the channel in order, and whether the background task
returned early after a primary materialization error.  The `Except` layer
is `Browse`'s own error return value. -/
structure BrowseRes where
  events : List Event
  groups : List AssetGroup
  aborted : Bool
deriving DecidableEq, Repr

/-- `Browse`: pass one over every tree (returning its error, if any, to the
caller), then the streaming pass two. -/
def Browse (flags : ImportFlags) (pi : List String → List String)
    (trees : List Tree) : Except String BrowseRes :=
  match browseP1 flags trees with
  | .error e => .error e
  | .ok (pairs, evs1) =>
    let r := passTwoAll flags pi pairs
    .ok { events := evs1 ++ r.1, groups := r.2.1, aborted := r.2.2 }

/-- `NewLocalFiles`: constructing the browser, with the external exif-tool
initialization result passed in.  The conflicting-configuration check runs
first, before anything else (no tree is touched here). -/
def NewLocalFiles (flags : ImportFlags) (exifInit : Except String Unit) :
    Except String Unit :=
  if flags.importIntoAlbum ≠ "" ∧ flags.usePathAsAlbumName ≠ FolderMode.none then
    .error "cannot use both --into-album and --folder-as-album"
  else if flags.useExifTool then exifInit
  else .ok ()

/-! ### Concrete test configuration -/

/-- A concrete classifier table for concrete runs. -/
def testClassify (ext : String) : MediaType :=
  if ext = ".jpg" ∨ ext = ".png" then .image
  else if ext = ".MP4" ∨ ext = ".mp4" then .video
  else if ext = ".xmp" ∨ ext = ".XMP" then .sidecar
  else .unknown

/-- A permissive concrete configuration: recursive, nothing banned, all
extensions included, no date range, no album options. -/
def baseFlags : ImportFlags where
  recursive := true
  bannedFiles := fun _ => false
  typeFromExt := testClassify
  ignoreSideCarFiles := false
  includeExt := fun _ => true
  excludeExt := fun _ => false
  dateRangeSet := false
  dateInRange := fun _ => true
  importIntoAlbum := ""
  usePathAsAlbumName := FolderMode.none
  albumNamePathSeparator := "#"
  useExifTool := false

/-- A one-directory tree named `Lib` whose files all read metadata date 0
and stat size 100. -/
def mkTree (files : List String) : Tree where
  name := "Lib"
  entries := [WalkEntry.dir "."] ++ files.map WalkEntry.file
  readMeta := fun _ => .ok 0
  stat := fun _ => .ok 100

/-- Configuration with sidecar-ignoring switched on. -/
def flagsIgnoreSC : ImportFlags := { baseFlags with ignoreSideCarFiles := true }

/-- Configuration with Path album mode and separator `#`. -/
def flagsPathMode : ImportFlags := { baseFlags with usePathAsAlbumName := FolderMode.path }

/-- Configuration with Folder album mode. -/
def flagsFolderMode : ImportFlags := { baseFlags with usePathAsAlbumName := FolderMode.folder }

/-- Configuration with both the fixed-album override and an album mode. -/
def flagsBoth : ImportFlags :=
  { baseFlags with importIntoAlbum := "X", usePathAsAlbumName := FolderMode.folder }

/-- Configuration with a date range admitting only non-negative dates. -/
def flagsDR : ImportFlags :=
  { baseFlags with dateRangeSet := true, dateInRange := fun d => decide (0 ≤ d) }

/-- Configuration banning the single name `evil.jpg`. -/
def flagsBanned : ImportFlags :=
  { baseFlags with bannedFiles := fun n => n == "evil.jpg" }

/-- A tree whose metadata reads all fail. -/
def failMetaTree : Tree where
  name := "Lib"
  entries := [WalkEntry.dir ".", WalkEntry.file "a.jpg"]
  readMeta := fun _ => .error "metadata: boom"
  stat := fun _ => .ok 100

/-- A tree whose metadata read fails exactly on `v.mp4`. -/
def badVideoTree : Tree where
  name := "Lib"
  entries := [WalkEntry.dir ".", WalkEntry.file "a.jpg", WalkEntry.file "v.mp4"]
  readMeta := fun n => if n = "v.mp4" then .error "bad video" else .ok 0
  stat := fun _ => .ok 100

/-- A tree where `v.mp4` carries date -5 (out of `flagsDR`'s range) and
every other file carries date 0. -/
def oldVideoTree : Tree where
  name := "Lib"
  entries := [WalkEntry.dir ".", WalkEntry.file "a.jpg", WalkEntry.file "v.mp4"]
  readMeta := fun n => if n = "v.mp4" then .ok (-5) else .ok 0
  stat := fun _ => .ok 100

/-- The catalog pass one computes for a tree (empty on a walk error); used
to phrase hypotheses about the buckets a scan will process. -/
def catalogOf (flags : ImportFlags) (t : Tree) : Catalog :=
  match passOneFsWalk flags t with
  | .ok r => r.1
  | .error _ => []

/-- `uniqueFallback flags files`: every non-image candidate of `files` has
at most one possible fallback match among `files`.  Since the keys of the
evolving link set are always drawn from `files`, this rules out any
influence of the map iteration order on the fallback scans. -/
def uniqueFallback (flags : ImportFlags) (files : List String) : Prop :=
  ∀ f ∈ files, flags.typeFromExt (extOf f) ≠ MediaType.image →
    ∀ k1 ∈ files, ∀ k2 ∈ files,
      fbMatch flags f k1 = true → fbMatch flags f k2 = true → k1 = k2

instance (flags : ImportFlags) (files : List String) :
    Decidable (uniqueFallback flags files) := by
  unfold uniqueFallback
  infer_instance

/-- Invariant of the evolving per-directory link set: every key and every
non-empty image/video/sidecar field is drawn from the directory's candidate
list. -/
def linksInv (files : List String) (links : Links) : Prop :=
  ∀ p ∈ links, p.1 ∈ files ∧
    (p.2.image ≠ "" → p.2.image ∈ files) ∧
    (p.2.video ≠ "" → p.2.video ∈ files) ∧
    (p.2.sidecar ≠ "" → p.2.sidecar ∈ files)

/-! ### Supporting lemmas -/

/-- `insertA` only adds the written pair. -/
theorem mem_insertA {β : Type} (l : List (String × β)) (k : String) (v : β)
    (p : String × β) (h : p ∈ insertA l k v) : p = (k, v) ∨ p ∈ l := by
  induction l with
  | nil =>
    simp [insertA] at h
    exact Or.inl h
  | cons q rest ih =>
    simp only [insertA] at h
    by_cases hq : q.1 = k
    · rw [if_pos hq] at h
      rcases List.mem_cons.1 h with h | h
      · exact Or.inl h
      · exact Or.inr (List.mem_cons_of_mem _ h)
    · rw [if_neg hq] at h
      rcases List.mem_cons.1 h with h | h
      · exact Or.inr (h ▸ List.mem_cons_self _ _)
      · rcases ih h with h | h
        · exact Or.inl h
        · exact Or.inr (List.mem_cons_of_mem _ h)

/-- A successful `lookupA` returns a pair of the list. -/
theorem lookupA_mem {β : Type} (l : List (String × β)) (k : String) (v : β)
    (h : lookupA l k = some v) : (k, v) ∈ l := by
  induction l with
  | nil => cases h
  | cons p rest ih =>
    simp only [lookupA] at h
    by_cases hp : p.1 = k
    · rw [if_pos hp] at h
      cases h
      rw [← hp]
      exact List.mem_cons_self _ _
    · rw [if_neg hp] at h
      exact List.mem_cons_of_mem _ (ih h)

/-- A fold preserves an invariant its step preserves. -/
theorem foldl_preserve {α σ : Type} (P : σ → Prop) (step : σ → α → σ)
    (Q : α → Prop)
    (hstep : ∀ s a, Q a → P s → P (step s a)) :
    ∀ (l : List α) (s : σ), (∀ a ∈ l, Q a) → P s → P (l.foldl step s) := by
  intro l
  induction l with
  | nil => exact fun s _ h => h
  | cons a rest ih =>
    intro s hl h
    exact ih (step s a) (fun x hx => hl x (List.mem_cons_of_mem _ hx))
      (hstep s a (hl a (List.mem_cons_self _ _)) h)

/-- Writing a pair whose components are drawn from `files` preserves the
link-set invariant. -/
theorem linksInv_insert (files : List String) (links : Links)
    (k : String) (v : fileLinks)
    (hinv : linksInv files links)
    (hk : k ∈ files)
    (hv : (v.image ≠ "" → v.image ∈ files) ∧
          (v.video ≠ "" → v.video ∈ files) ∧
          (v.sidecar ≠ "" → v.sidecar ∈ files)) :
    linksInv files (insertA links k v) := by
  intro p hp
  rcases mem_insertA links k v p hp with h | h
  · subst h
    exact ⟨hk, hv⟩
  · exact hinv p h

/-- A Go-style zero-defaulted map read satisfies the value part of the
link-set invariant. -/
theorem linksInv_getD (files : List String) (links : Links)
    (k : String) (hinv : linksInv files links) :
    let v := (lookupA links k).getD {}
    (v.image ≠ "" → v.image ∈ files) ∧
    (v.video ≠ "" → v.video ∈ files) ∧
    (v.sidecar ≠ "" → v.sidecar ∈ files) := by
  cases hlk : lookupA links k with
  | none => simp [fileLinks.image, fileLinks.video, fileLinks.sidecar]
  | some v =>
    simpa using (hinv (k, v) (lookupA_mem links k v hlk)).2

/-- The first pass-two sub-pass only produces entries over the directory's
candidate list. -/
theorem scanImages_inv (flags : ImportFlags) (files : List String) :
    linksInv files (scanImages flags files) := by
  unfold scanImages
  refine foldl_preserve (linksInv files) _ (fun f => f ∈ files) ?_ files []
    (fun a ha => ha) (fun p hp => by cases hp)
  intro links file hf hinv
  split
  · refine linksInv_insert files links file _ hinv hf ?_
    have h := linksInv_getD files links file hinv
    refine ⟨fun _ => hf, h.2.1, h.2.2⟩
  · exact hinv

/-- One second-sub-pass step preserves the link-set invariant, whatever the
map iteration order does. -/
theorem linkOne_inv (flags : ImportFlags) (pi : List String → List String)
    (files : List String) (links : Links) (file : String)
    (hf : file ∈ files) (hinv : linksInv files links) :
    linksInv files (linkOne flags pi links file) := by
  unfold linkOne
  dsimp only
  cases ht : flags.typeFromExt (extOf file) with
  | image => exact hinv
  | unknown => exact hinv
  | sidecar =>
    dsimp only
    cases hlk : lookupA links (trimSuffix file (extOf file)) with
    | some image =>
      have hm := hinv _ (lookupA_mem _ _ _ hlk)
      exact linksInv_insert _ _ _ _ hinv hm.1 ⟨hm.2.1, hm.2.2.1, fun _ => hf⟩
    | none =>
      dsimp only
      cases hfd : (pi (keysA links)).find? (fbMatch flags file) with
      | some f2 =>
        dsimp only
        cases hlk2 : lookupA links f2 with
        | some image =>
          have hm := hinv _ (lookupA_mem _ _ _ hlk2)
          exact linksInv_insert _ _ _ _ hinv hm.1 ⟨hm.2.1, hm.2.2.1, fun _ => hf⟩
        | none => exact hinv
      | none => exact hinv
  | video =>
    dsimp only
    cases hlk : lookupA links (trimSuffix file (extOf file)) with
    | some image =>
      have hm := hinv _ (lookupA_mem _ _ _ hlk)
      exact linksInv_insert _ _ _ _ hinv hm.1 ⟨hm.2.1, hm.2.2.1, fun _ => hf⟩
    | none =>
      dsimp only
      cases hfd : (pi (keysA links)).find? (fbMatch flags file) with
      | some f2 =>
        dsimp only
        cases hlk2 : lookupA links f2 with
        | some image =>
          have hm := hinv _ (lookupA_mem _ _ _ hlk2)
          exact linksInv_insert _ _ _ _ hinv hm.1 ⟨hm.2.1, fun _ => hf, hm.2.2.2⟩
        | none => exact hinv
      | none =>
        refine linksInv_insert _ _ _ _ hinv hf ?_
        exact ⟨fun h => absurd rfl h, fun _ => hf, fun h => absurd rfl h⟩

/-- The complete link set of a directory satisfies the invariant. -/
theorem buildLinks_inv (flags : ImportFlags) (pi : List String → List String)
    (files : List String) :
    linksInv files (buildLinks flags pi files) := by
  unfold buildLinks
  exact foldl_preserve (linksInv files) _ (fun f => f ∈ files)
    (fun links file hf hinv => linkOne_inv flags pi files links file hf hinv)
    files _ (fun a ha => ha) (scanImages_inv flags files)

/-- Resolving the zero-value entry does nothing. -/
theorem resolveEntry_empty (flags : ImportFlags) (t : Tree) :
    resolveEntry flags t {} = {} := by
  unfold resolveEntry
  rw [if_neg (by decide), if_neg (by decide), if_neg (by decide)]

/-- Every emitted group of the resolution loop comes from resolving one of
the given keys. -/
theorem processEntries_groups (flags : ImportFlags) (t : Tree) (links : Links) :
    ∀ keys g, g ∈ (processEntries flags t links keys).2.1 →
      ∃ key, (resolveEntry flags t ((lookupA links key).getD {})).group = some g := by
  intro keys
  induction keys with
  | nil =>
    intro g hg
    simp [processEntries] at hg
  | cons key rest ih =>
    intro g hg
    unfold processEntries at hg
    dsimp only at hg
    split at hg
    · simp at hg
    · rcases List.mem_append.1 hg with h | h
      · refine ⟨key, ?_⟩
        cases hv : (resolveEntry flags t ((lookupA links key).getD {})).group with
        | none => rw [hv] at h; simp at h
        | some g' =>
          rw [hv] at h
          simp at h
          rw [h]
      · exact ih g h

/-- When no tree has an enumeration failure, the pass-one loop of `Browse`
succeeds. -/
theorem browseP1_ok (flags : ImportFlags) (trees : List Tree)
    (h : ∀ tr ∈ trees, tr.walkErr = Option.none) :
    ∃ pr, browseP1 flags trees = .ok pr := by
  induction trees with
  | nil => exact ⟨_, rfl⟩
  | cons t rest ih =>
    have ht : t.walkErr = Option.none := h t (by simp)
    obtain ⟨pr, hpr⟩ := ih (fun tr htr => h tr (by simp [htr]))
    unfold browseP1
    rw [show passOneFsWalk flags t = .ok (p1Walk flags t.entries [] [] []) from by
      unfold passOneFsWalk; rw [ht], hpr]
    exact ⟨_, rfl⟩

/-- `assetFromFile` returns one of exactly three shapes: a hard error with
the handle closed, the date-range soft exclusion with its discard event and
the handle closed, or an open handle for the file with no events. -/
theorem assetFromFile_shape (flags : ImportFlags) (t : Tree) (name : String) :
    (∃ e, assetFromFile flags t name = { err := some e, closed := true }) ∨
    (assetFromFile flags t name =
      { events := [⟨EvKind.discoveredDiscarded, name, some "asset outside date range"⟩],
        closed := true }) ∨
    (∃ sz dt, assetFromFile flags t name =
      { asset := some { fileName := name, title := basePath name,
                        fileSize := sz, dateTaken := dt } }) := by
  unfold assetFromFile
  cases hm : t.readMeta name with
  | error e => exact Or.inl ⟨e, rfl⟩
  | ok dt =>
    cases hs : t.stat name with
    | error e => exact Or.inl ⟨e, rfl⟩
    | ok sz =>
      dsimp only
      by_cases hc : (flags.dateRangeSet && !(flags.dateInRange dt)) = true
      · rw [if_pos hc]
        exact Or.inr (Or.inl rfl)
      · rw [if_neg hc]
        exact Or.inr (Or.inr ⟨sz, dt, rfl⟩)

/-- `finishGroup` only touches the sidecar reference and album list. -/
theorem finishGroup_preserves (flags : ImportFlags) (tn : String)
    (p : LocalAssetFile) (linked : fileLinks) (g : AssetGroup) :
    (finishGroup flags tn p linked g).2.kind = g.kind ∧
    (finishGroup flags tn p linked g).2.assets = g.assets := by
  unfold finishGroup
  by_cases h : linked.sidecar ≠ "" <;> simp [h]

/-- Every event `finishGroup` itself records is the associated-metadata
event. -/
theorem finishGroup_events (flags : ImportFlags) (tn : String)
    (p : LocalAssetFile) (linked : fileLinks) (g : AssetGroup) :
    ∀ e ∈ (finishGroup flags tn p linked g).1,
      e.kind = EvKind.associatedMetadata := by
  unfold finishGroup
  by_cases h : linked.sidecar ≠ "" <;> simp [h]

/-- The sidecar reference `finishGroup` leaves on a group is either the
group's own or the entry's non-empty sidecar filename. -/
theorem finishGroup_sideCar (flags : ImportFlags) (tn : String)
    (p : LocalAssetFile) (linked : fileLinks) (g : AssetGroup) :
    (finishGroup flags tn p linked g).2.sideCar = g.sideCar ∨
    ((finishGroup flags tn p linked g).2.sideCar = some linked.sidecar ∧
     linked.sidecar ≠ "") := by
  unfold finishGroup
  by_cases h : linked.sidecar ≠ ""
  · right
    refine ⟨?_, h⟩
    simp [h]
  · left
    simp [h]

/-- A handle returned by `assetFromFile` is for the requested file. -/
theorem assetFromFile_fileName (flags : ImportFlags) (t : Tree) (name : String)
    (a : LocalAssetFile) (h : (assetFromFile flags t name).asset = some a) :
    a.fileName = name := by
  rcases assetFromFile_shape flags t name with ⟨e, hS⟩ | hS | ⟨sz, dt, hS⟩ <;>
    rw [hS] at h <;> simp at h
  subst h
  rfl

/-- Image-and-video entry, companion video fails hard: error event for the
video, `None` group around the image alone. -/
theorem resolveEntry_iv_verr (flags : ImportFlags) (t : Tree) (linked : fileLinks)
    (a : LocalAssetFile) (e : String)
    (hi : linked.image ≠ "") (hv : linked.video ≠ "")
    (hS : assetFromFile flags t linked.image = { asset := some a })
    (hV : assetFromFile flags t linked.video = { err := some e, closed := true }) :
    resolveEntry flags t linked =
      { events := [] ++ [] ++ errFn linked.video (some e) ++
          (finishGroup flags t.name a linked
            { kind := GroupKind.none, assets := [a] }).1,
        group := some (finishGroup flags t.name a linked
          { kind := GroupKind.none, assets := [a] }).2 } := by
  unfold resolveEntry
  rw [if_pos ⟨hi, hv⟩, hS, hV]

/-- Image-and-video entry, both materialize: MotionPhoto group `[a, i]`. -/
theorem resolveEntry_iv_vok (flags : ImportFlags) (t : Tree) (linked : fileLinks)
    (a i : LocalAssetFile)
    (hi : linked.image ≠ "") (hv : linked.video ≠ "")
    (hS : assetFromFile flags t linked.image = { asset := some a })
    (hV : assetFromFile flags t linked.video = { asset := some i }) :
    resolveEntry flags t linked =
      { events := [] ++ [] ++
          (finishGroup flags t.name a linked
            { kind := GroupKind.motionPhoto, assets := [a, i], coverIndex := 0 }).1,
        group := some (finishGroup flags t.name a linked
          { kind := GroupKind.motionPhoto, assets := [a, i], coverIndex := 0 }).2 } := by
  unfold resolveEntry
  rw [if_pos ⟨hi, hv⟩, hS, hV]

/-- Image-and-video entry, companion video returns neither handle nor error
(the soft exclusion): no error event, `None` group around the image. -/
theorem resolveEntry_iv_vsoft (flags : ImportFlags) (t : Tree) (linked : fileLinks)
    (a : LocalAssetFile) (E : List Event) (c : Bool)
    (hi : linked.image ≠ "") (hv : linked.video ≠ "")
    (hS : assetFromFile flags t linked.image = { asset := some a })
    (hV : assetFromFile flags t linked.video = { events := E, closed := c }) :
    resolveEntry flags t linked =
      { events := [] ++ E ++ errFn linked.video Option.none ++
          (finishGroup flags t.name a linked
            { kind := GroupKind.none, assets := [a] }).1,
        group := some (finishGroup flags t.name a linked
          { kind := GroupKind.none, assets := [a] }).2 } := by
  unfold resolveEntry
  rw [if_pos ⟨hi, hv⟩, hS, hV]

/-- Image-and-video entry whose primary image fails hard: the task aborts
with an error event and no group. -/
theorem resolveEntry_iv_ierr (flags : ImportFlags) (t : Tree) (linked : fileLinks)
    (e : String)
    (hi : linked.image ≠ "") (hv : linked.video ≠ "")
    (hS : assetFromFile flags t linked.image = { err := some e, closed := true }) :
    resolveEntry flags t linked =
      { events := [] ++ errFn linked.image (some e), abort := true } := by
  unfold resolveEntry
  rw [if_pos ⟨hi, hv⟩, hS]

/-- Image-only entry whose primary image fails hard: same abort. -/
theorem resolveEntry_i_ierr (flags : ImportFlags) (t : Tree) (linked : fileLinks)
    (e : String)
    (hi : linked.image ≠ "") (hv : linked.video = "")
    (hS : assetFromFile flags t linked.image = { err := some e, closed := true }) :
    resolveEntry flags t linked =
      { events := [] ++ errFn linked.image (some e), abort := true } := by
  unfold resolveEntry
  rw [if_neg (fun h => h.2 hv), if_pos hi, hS]

/-- Every asset handle of a group emitted by the resolution loop is for the
entry's own (present) image or video file. -/
theorem resolveEntry_assets (flags : ImportFlags) (t : Tree) (linked : fileLinks)
    (g : AssetGroup) (hg : (resolveEntry flags t linked).group = some g) :
    ∀ x ∈ g.assets,
      (x.fileName = linked.image ∧ linked.image ≠ "") ∨
      (x.fileName = linked.video ∧ linked.video ≠ "") := by
  unfold resolveEntry at hg
  dsimp only at hg
  split at hg
  · rename_i hiv
    split at hg
    · simp at hg
    · simp at hg
    · rename_i a ha
      split at hg
      · rename_i i hi2
        simp at hg
        intro x hx
        rw [← hg, (finishGroup_preserves _ _ _ _ _).2] at hx
        simp at hx
        rcases hx with hx | hx
        · subst hx; exact Or.inl ⟨assetFromFile_fileName _ _ _ _ ha, hiv.1⟩
        · subst hx; exact Or.inr ⟨assetFromFile_fileName _ _ _ _ hi2, hiv.2⟩
      · simp at hg
        intro x hx
        rw [← hg, (finishGroup_preserves _ _ _ _ _).2] at hx
        simp at hx
        subst hx
        exact Or.inl ⟨assetFromFile_fileName _ _ _ _ ha, hiv.1⟩
  · split at hg
    · rename_i hi
      split at hg
      · simp at hg
      · simp at hg
      · rename_i a ha
        simp at hg
        intro x hx
        rw [← hg, (finishGroup_preserves _ _ _ _ _).2] at hx
        simp at hx
        subst hx
        exact Or.inl ⟨assetFromFile_fileName _ _ _ _ ha, hi⟩
    · split at hg
      · rename_i hv
        split at hg
        · simp at hg
        · simp at hg
        · rename_i a ha
          simp at hg
          intro x hx
          rw [← hg, (finishGroup_preserves _ _ _ _ _).2] at hx
          simp at hx
          subst hx
          exact Or.inr ⟨assetFromFile_fileName _ _ _ _ ha, hv⟩
      · simp at hg

/-- Every asset of every group a directory emits is one of the directory's
own candidate files. -/
theorem passTwoDir_assets (flags : ImportFlags) (pi : List String → List String)
    (t : Tree) (files : List String) :
    ∀ g ∈ (passTwoDir flags pi t files).2.1, ∀ x ∈ g.assets,
      x.fileName ∈ files := by
  intro g hg x hx
  obtain ⟨key, hkey⟩ := processEntries_groups flags t _ _ g hg
  cases hlk : lookupA (buildLinks flags pi files) key with
  | none =>
    rw [hlk] at hkey
    rw [show (Option.none : Option fileLinks).getD {} = {} from rfl,
      resolveEntry_empty] at hkey
    cases hkey
  | some linked =>
    rw [hlk] at hkey
    have hassets := resolveEntry_assets flags t _ g hkey x hx
    have hinv := buildLinks_inv flags pi files _ (lookupA_mem _ _ _ hlk)
    rcases hassets with ⟨h, hne⟩ | ⟨h, hne⟩
    · rw [h]
      exact hinv.2.1 hne
    · rw [h]
      exact hinv.2.2.1 hne

/-- The sidecar reference of a group emitted by the resolution loop is
absent or the entry's own non-empty sidecar filename. -/
theorem resolveEntry_sideCar (flags : ImportFlags) (t : Tree) (linked : fileLinks)
    (g : AssetGroup) (hg : (resolveEntry flags t linked).group = some g) :
    g.sideCar = Option.none ∨
    (g.sideCar = some linked.sidecar ∧ linked.sidecar ≠ "") := by
  unfold resolveEntry at hg
  dsimp only at hg
  split at hg
  · split at hg
    · simp at hg
    · simp at hg
    · split at hg
      · simp at hg
        rw [← hg]
        exact finishGroup_sideCar flags t.name _ linked _
      · simp at hg
        rw [← hg]
        exact finishGroup_sideCar flags t.name _ linked _
  · split at hg
    · split at hg
      · simp at hg
      · simp at hg
      · simp at hg
        rw [← hg]
        exact finishGroup_sideCar flags t.name _ linked _
    · split at hg
      · split at hg
        · simp at hg
        · simp at hg
        · simp at hg
          rw [← hg]
          exact finishGroup_sideCar flags t.name _ linked _
      · simp at hg

/-- The sidecar reference of every group a directory emits is one of the
directory's own candidate files. -/
theorem passTwoDir_sideCar (flags : ImportFlags) (pi : List String → List String)
    (t : Tree) (files : List String) :
    ∀ g ∈ (passTwoDir flags pi t files).2.1, ∀ s, g.sideCar = some s →
      s ∈ files := by
  intro g hg s hs
  obtain ⟨key, hkey⟩ := processEntries_groups flags t _ _ g hg
  cases hlk : lookupA (buildLinks flags pi files) key with
  | none =>
    rw [hlk] at hkey
    rw [show (Option.none : Option fileLinks).getD {} = {} from rfl,
      resolveEntry_empty] at hkey
    cases hkey
  | some linked =>
    rw [hlk] at hkey
    rcases resolveEntry_sideCar flags t _ g hkey with h | ⟨h, hne⟩
    · rw [h] at hs
      cases hs
    · rw [h] at hs
      injection hs with hs
      have hinv := buildLinks_inv flags pi files _ (lookupA_mem _ _ _ hlk)
      rw [← hs]
      exact hinv.2.2.2 hne

/-- Every group a tree emits comes from one of its non-empty buckets. -/
theorem passTwoDirs_groups (flags : ImportFlags) (pi : List String → List String)
    (t : Tree) (cat : Catalog) :
    ∀ dirs g, g ∈ (passTwoDirs flags pi t cat dirs).2.1 →
      ∃ dir files, lookupA cat dir = some files ∧
        g ∈ (passTwoDir flags pi t files).2.1 := by
  intro dirs
  induction dirs with
  | nil =>
    intro g hg
    simp [passTwoDirs] at hg
  | cons dir rest ih =>
    intro g hg
    unfold passTwoDirs at hg
    dsimp only at hg
    split at hg
    · exact ih g hg
    · rename_i hne
      split at hg
      · cases hlk : lookupA cat dir with
        | none =>
          rw [hlk] at hne
          simp at hne
        | some files =>
          rw [hlk] at hg
          exact ⟨dir, files, hlk, hg⟩
      · rcases List.mem_append.1 hg with h | h
        · cases hlk : lookupA cat dir with
          | none =>
            rw [hlk] at hne
            simp at hne
          | some files =>
            rw [hlk] at h
            exact ⟨dir, files, hlk, h⟩
        · exact ih g h

/-- Every group of the whole pass two comes from some tree's bucket. -/
theorem passTwoAll_groups (flags : ImportFlags) (pi : List String → List String) :
    ∀ pairs g, g ∈ (passTwoAll flags pi pairs).2.1 →
      ∃ p ∈ pairs, ∃ dir files, lookupA p.2 dir = some files ∧
        g ∈ (passTwoDir flags pi p.1 files).2.1 := by
  intro pairs
  induction pairs with
  | nil =>
    intro g hg
    simp [passTwoAll] at hg
  | cons p rest ih =>
    intro g hg
    unfold passTwoAll at hg
    dsimp only at hg
    split at hg
    · obtain ⟨dir, files, hlk, hmem⟩ := passTwoDirs_groups flags pi p.1 p.2 _ g hg
      exact ⟨p, List.mem_cons_self _ _, dir, files, hlk, hmem⟩
    · rcases List.mem_append.1 hg with h | h
      · obtain ⟨dir, files, hlk, hmem⟩ := passTwoDirs_groups flags pi p.1 p.2 _ g h
        exact ⟨p, List.mem_cons_self _ _, dir, files, hlk, hmem⟩
      · obtain ⟨q, hq, r⟩ := ih g h
        exact ⟨q, List.mem_cons_of_mem _ hq, r⟩

/-- Each catalog pair of a successful pass-one loop belongs to one of the
trees, was computed by `passOneFsWalk`, and its events reach the total
event list. -/
theorem browseP1_pairs (flags : ImportFlags) :
    ∀ trees pairs evs, browseP1 flags trees = .ok (pairs, evs) →
      ∀ p ∈ pairs, p.1 ∈ trees ∧
        ∃ evst, passOneFsWalk flags p.1 = .ok (p.2, evst) ∧
          ∀ e ∈ evst, e ∈ evs := by
  intro trees
  induction trees with
  | nil =>
    intro pairs evs h p hp
    unfold browseP1 at h
    cases h
    cases hp
  | cons t rest ih =>
    intro pairs evs h p hp
    unfold browseP1 at h
    cases h1 : passOneFsWalk flags t with
    | error e => rw [h1] at h; cases h
    | ok r =>
      rw [h1] at h
      obtain ⟨cat, evst⟩ := r
      cases h2 : browseP1 flags rest with
      | error e => rw [h2] at h; cases h
      | ok r2 =>
        rw [h2] at h
        obtain ⟨pairs2, evs2⟩ := r2
        cases h
        rcases List.mem_cons.1 hp with hp | hp
        · subst hp
          exact ⟨List.mem_cons_self _ _, evst, h1,
            fun e he => List.mem_append_left _ he⟩
        · obtain ⟨hmem, evst2, hok, hsub⟩ := ih pairs2 evs2 h2 p hp
          exact ⟨List.mem_cons_of_mem _ hmem, evst2, hok,
            fun e he => List.mem_append_right _ (hsub e he)⟩

/-- Every tree's pass-one events reach the total event list of a successful
pass-one loop. -/
theorem browseP1_tree_events (flags : ImportFlags) :
    ∀ trees pairs evs, browseP1 flags trees = .ok (pairs, evs) →
      ∀ t ∈ trees, ∃ cat evst, passOneFsWalk flags t = .ok (cat, evst) ∧
        ∀ e ∈ evst, e ∈ evs := by
  intro trees
  induction trees with
  | nil =>
    intro pairs evs h t ht
    cases ht
  | cons t0 rest ih =>
    intro pairs evs h t ht
    unfold browseP1 at h
    cases h1 : passOneFsWalk flags t0 with
    | error e => rw [h1] at h; cases h
    | ok r =>
      rw [h1] at h
      obtain ⟨cat, evst⟩ := r
      cases h2 : browseP1 flags rest with
      | error e => rw [h2] at h; cases h
      | ok r2 =>
        rw [h2] at h
        obtain ⟨pairs2, evs2⟩ := r2
        cases h
        rcases List.mem_cons.1 ht with ht | ht
        · subst ht
          exact ⟨cat, evst, h1, fun e he => List.mem_append_left _ he⟩
        · obtain ⟨cat2, evst2, hok, hsub⟩ := ih pairs2 evs2 h2 t ht
          exact ⟨cat2, evst2, hok,
            fun e he => List.mem_append_right _ (hsub e he)⟩

/-- Reading back through a Go map write: the written key returns the new
value, others are unchanged. -/
theorem lookupA_insertA {β : Type} (l : List (String × β)) (k k' : String) (v : β) :
    lookupA (insertA l k v) k' = if k' = k then some v else lookupA l k' := by
  induction l with
  | nil =>
    simp only [insertA, lookupA]
    by_cases h : k' = k
    · subst h
      simp
    · rw [if_neg (fun hh => h hh.symm), if_neg h]
  | cons p rest ih =>
    by_cases hp : p.1 = k
    · simp only [insertA, if_pos hp, lookupA]
      by_cases h : k' = k
      · subst h
        simp
      · rw [if_neg (fun hh => h hh.symm), if_neg h, hp, if_neg (fun hh => h hh.symm)]
    · simp only [insertA, if_neg hp, lookupA]
      by_cases h : p.1 = k'
      · rw [if_pos h, if_neg (fun hk => hp (h.trans hk)), if_pos h]
      · rw [if_neg h, ih]
        by_cases hk : k' = k <;> simp [hk, h]

/-- The extension-filter tail of the pass-one file case only appends to the
event list. -/
theorem p1Include_events (flags : ImportFlags) (cat : Catalog) (evs : List Event)
    (name dir ext : String) :
    ∃ tail, (p1Include flags cat evs name dir ext).2 = evs ++ tail := by
  unfold p1Include
  repeat' split
  all_goals first
    | exact ⟨[], (List.append_nil evs).symm⟩
    | exact ⟨_, rfl⟩

/-- The pass-one file case only appends to the event list. -/
theorem p1File_events (flags : ImportFlags) (cat : Catalog) (evs : List Event)
    (name : String) :
    ∃ tail, (p1File flags cat evs name).2 = evs ++ tail := by
  unfold p1File p1Include
  dsimp only
  repeat' split
  all_goals first
    | exact ⟨[], (List.append_nil evs).symm⟩
    | exact ⟨_, rfl⟩
    | exact ⟨_, List.append_assoc _ _ _⟩

/-- The pass-one walk only appends to the event list. -/
theorem p1Walk_events_mono (flags : ImportFlags) (entries : List WalkEntry) :
    ∀ skips cat evs, ∃ tail,
      (p1Walk flags entries skips cat evs).2 = evs ++ tail := by
  induction entries with
  | nil => exact fun _ _ evs => ⟨[], (List.append_nil evs).symm⟩
  | cons e rest ih =>
    intro skips cat evs
    cases e with
    | dir name =>
      unfold p1Walk
      split
      · exact ih skips cat evs
      · split
        · exact ih (name :: skips) cat evs
        · exact ih skips (insertA cat name []) evs
    | file name =>
      unfold p1Walk
      split
      · exact ih skips cat evs
      · obtain ⟨t1, h1⟩ := p1File_events flags cat evs name
        obtain ⟨t2, h2⟩ := ih skips (p1File flags cat evs name).1 (p1File flags cat evs name).2
        exact ⟨t1 ++ t2, by rw [h2, h1, List.append_assoc]⟩

/-- A banned file is discarded with reason "banned file" and the catalog is
untouched. -/
theorem p1File_banned (flags : ImportFlags) (cat : Catalog) (evs : List Event)
    (name : String) (hb : flags.bannedFiles name = true) :
    p1File flags cat evs name =
      (cat, evs ++ [⟨EvKind.discoveredDiscarded, name, some "banned file"⟩]) := by
  unfold p1File
  rw [if_pos hb]

/-- An unbanned sidecar under sidecar-ignoring is discarded with reason
"sidecar file ignored" and the catalog is untouched. -/
theorem p1File_sidecar_ignored (flags : ImportFlags) (cat : Catalog)
    (evs : List Event) (name : String)
    (hb : flags.bannedFiles name = false)
    (hsc : flags.typeFromExt (extOf name) = MediaType.sidecar)
    (hig : flags.ignoreSideCarFiles = true) :
    p1File flags cat evs name =
      (cat, evs ++ [⟨EvKind.discoveredSidecar, name, Option.none⟩] ++
        [⟨EvKind.discoveredDiscarded, name, some "sidecar file ignored"⟩]) := by
  unfold p1File
  rw [hb]
  dsimp only
  rw [hsc, hig]
  simp

/-- Whatever the pass-one file case appends for a visited file also appears
in the final event list of a recursive walk that contains the file. -/
theorem p1Walk_contains (flags : ImportFlags) (hrec : flags.recursive = true)
    (name : String) (T : List Event)
    (hT : ∀ cat evs, p1File flags cat evs name =
      ((p1File flags cat evs name).1, evs ++ T)) :
    ∀ entries cat evs, WalkEntry.file name ∈ entries →
      ∀ ev ∈ T, ev ∈ (p1Walk flags entries [] cat evs).2 := by
  intro entries
  induction entries with
  | nil =>
    intro cat evs h
    simp at h
  | cons e rest ih =>
    intro cat evs hmem ev hev
    cases e with
    | dir d =>
      have hmem' : WalkEntry.file name ∈ rest := by
        rcases List.mem_cons.1 hmem with h | h
        · cases h
        · exact h
      unfold p1Walk
      rw [if_neg (fun h : underAny [] d = true => by simp [underAny] at h),
          if_neg (show ¬(flags.recursive = false ∧ d ≠ ".") by simp [hrec])]
      exact ih (insertA cat d []) evs hmem' ev hev
    | file f =>
      unfold p1Walk
      rw [if_neg (fun h : underAny [] f = true => by simp [underAny] at h)]
      rcases List.mem_cons.1 hmem with h | hmem'
      · cases h
        obtain ⟨tail, htail⟩ := p1Walk_events_mono flags rest []
          (p1File flags cat evs name).1 (p1File flags cat evs name).2
        dsimp only
        rw [htail, show (p1File flags cat evs name).2 = evs ++ T from
          congrArg Prod.snd (hT cat evs)]
        simp [hev]
      · exact ih (p1File flags cat evs f).1 (p1File flags cat evs f).2 hmem' ev hev

/-- The extension-filter tail never adds `name` to a bucket when the
appended file is some other file. -/
theorem p1Include_bucket (flags : ImportFlags) (name : String)
    (cat : Catalog) (evs : List Event) (nm dir ext d : String)
    (files : List String) (hnm : nm ≠ name)
    (hinv : ∀ d' fs, lookupA cat d' = some fs → name ∉ fs) :
    lookupA (p1Include flags cat evs nm dir ext).1 d = some files → name ∉ files := by
  unfold p1Include
  split
  · exact hinv d files
  · split
    · exact hinv d files
    · intro hlk
      rw [lookupA_insertA] at hlk
      by_cases hd : d = dir
      · rw [if_pos hd] at hlk
        cases hlk
        intro hmem
        rcases List.mem_append.1 hmem with h | h
        · cases hbkt : lookupA cat dir with
          | none => rw [hbkt] at h; simp at h
          | some fs =>
            rw [hbkt] at h
            exact hinv dir fs hbkt (by simpa using h)
        · simp at h
          exact hnm h.symm
      · rw [if_neg hd] at hlk
        exact hinv d files hlk

/-- If `name` is banned, or is a sidecar while sidecar-ignoring is on, the
pass-one file case never puts `name` into any bucket. -/
theorem p1File_bucket (flags : ImportFlags) (name : String)
    (hdrop : flags.bannedFiles name = true ∨
      (flags.typeFromExt (extOf name) = MediaType.sidecar ∧
       flags.ignoreSideCarFiles = true))
    (cat : Catalog) (evs : List Event) (nm d : String) (files : List String)
    (hinv : ∀ d' fs, lookupA cat d' = some fs → name ∉ fs) :
    lookupA (p1File flags cat evs nm).1 d = some files → name ∉ files := by
  by_cases hnm : nm = name
  · subst hnm
    rcases hdrop with hb | ⟨hsc, hig⟩
    · rw [p1File_banned flags cat evs nm hb]
      exact hinv d files
    · by_cases hb : flags.bannedFiles nm = true
      · rw [p1File_banned flags cat evs nm hb]
        exact hinv d files
      · rw [p1File_sidecar_ignored flags cat evs nm
          (Bool.not_eq_true _ ▸ hb) hsc hig]
        exact hinv d files
  · unfold p1File
    dsimp only
    split
    · exact hinv d files
    · split
      · exact hinv d files
      · exact p1Include_bucket flags name cat _ nm _ _ d files hnm hinv
      · exact p1Include_bucket flags name cat _ nm _ _ d files hnm hinv
      · split
        · exact hinv d files
        · exact p1Include_bucket flags name cat _ nm _ _ d files hnm hinv

/-- Bucket absence carried through the whole pass-one walk. -/
theorem p1Walk_bucket (flags : ImportFlags) (name : String)
    (hdrop : flags.bannedFiles name = true ∨
      (flags.typeFromExt (extOf name) = MediaType.sidecar ∧
       flags.ignoreSideCarFiles = true)) :
    ∀ entries skips cat evs,
      (∀ d fs, lookupA cat d = some fs → name ∉ fs) →
      ∀ dir files,
        lookupA (p1Walk flags entries skips cat evs).1 dir = some files →
          name ∉ files := by
  intro entries
  induction entries with
  | nil =>
    intro skips cat evs hinv dir files hlk
    exact hinv dir files hlk
  | cons e rest ih =>
    intro skips cat evs hinv dir files
    cases e with
    | dir d =>
      unfold p1Walk
      split
      · exact ih skips cat evs hinv dir files
      · split
        · exact ih _ cat evs hinv dir files
        · refine ih skips (insertA cat d []) evs ?_ dir files
          intro d' fs hlk'
          rw [lookupA_insertA] at hlk'
          by_cases hd : d' = d
          · rw [if_pos hd] at hlk'
            cases hlk'
            simp
          · rw [if_neg hd] at hlk'
            exact hinv d' fs hlk'
    | file f =>
      unfold p1Walk
      split
      · exact ih skips cat evs hinv dir files
      · refine ih skips _ _ ?_ dir files
        intro d' fs
        exact p1File_bucket flags name hdrop cat evs f d' fs hinv


/-- Keys of an invariant-satisfying link set are candidate files. -/
theorem keysA_mem_of_linksInv (files : List String) (links : Links)
    (hinv : linksInv files links) :
    ∀ k ∈ keysA links, k ∈ files := by
  intro k hk
  simp only [keysA, List.mem_map] at hk
  obtain ⟨p, hp, hk⟩ := hk
  rw [← hk]
  exact (hinv p hp).1

/-- `find?` returns the same result on two membership-equal lists when at
most one element can satisfy the predicate: the model of why a unique
fallback match makes the Go map range order irrelevant. -/
theorem find?_eq_of_unique (p : String → Bool) (l1 l2 : List String)
    (hmem : ∀ x, x ∈ l1 ↔ x ∈ l2)
    (huniq : ∀ a b, a ∈ l1 → b ∈ l1 → p a = true → p b = true → a = b) :
    l1.find? p = l2.find? p := by
  cases h1 : l1.find? p with
  | none =>
    cases h2 : l2.find? p with
    | none => rfl
    | some y =>
      have hy := List.find?_some h2
      have hym := (hmem y).2 (List.mem_of_find?_eq_some h2)
      exact absurd hy (List.find?_eq_none.1 h1 y hym)
  | some x =>
    have hx := List.find?_some h1
    have hxm := List.mem_of_find?_eq_some h1
    cases h2 : l2.find? p with
    | none =>
      exact absurd hx (List.find?_eq_none.1 h2 x ((hmem x).1 hxm))
    | some y =>
      have hy := List.find?_some h2
      have hym := (hmem y).2 (List.mem_of_find?_eq_some h2)
      exact congrArg some (huniq x y hxm hym hx hy)

/-- Under unique fallback matches, one second-sub-pass step is independent
of the map iteration order. -/
theorem linkOne_eq (flags : ImportFlags) (pi1 pi2 : List String → List String)
    (files : List String) (links : Links) (file : String)
    (h1 : ∀ l x, x ∈ pi1 l ↔ x ∈ l) (h2 : ∀ l x, x ∈ pi2 l ↔ x ∈ l)
    (hf : file ∈ files)
    (hinv : linksInv files links)
    (huniq : uniqueFallback flags files) :
    linkOne flags pi1 links file = linkOne flags pi2 links file := by
  have hkeys := keysA_mem_of_linksInv files links hinv
  unfold linkOne
  dsimp only
  cases ht : flags.typeFromExt (extOf file) with
  | image => rfl
  | unknown => rfl
  | sidecar =>
    have hfind : (pi1 (keysA links)).find? (fbMatch flags file) =
        (pi2 (keysA links)).find? (fbMatch flags file) := by
      refine find?_eq_of_unique _ _ _
        (fun x => (h1 _ x).trans (h2 _ x).symm) ?_
      intro a b ha hb hpa hpb
      exact huniq file hf (by rw [ht]; intro hc; cases hc)
        a (hkeys a ((h1 _ a).1 ha)) b (hkeys b ((h1 _ b).1 hb)) hpa hpb
    rw [hfind]
  | video =>
    have hfind : (pi1 (keysA links)).find? (fbMatch flags file) =
        (pi2 (keysA links)).find? (fbMatch flags file) := by
      refine find?_eq_of_unique _ _ _
        (fun x => (h1 _ x).trans (h2 _ x).symm) ?_
      intro a b ha hb hpa hpb
      exact huniq file hf (by rw [ht]; intro hc; cases hc)
        a (hkeys a ((h1 _ a).1 ha)) b (hkeys b ((h1 _ b).1 hb)) hpa hpb
    rw [hfind]

/-- Under unique fallback matches, the whole link set of a directory is
independent of the map iteration order. -/
theorem buildLinks_eq (flags : ImportFlags) (pi1 pi2 : List String → List String)
    (files : List String)
    (h1 : ∀ l x, x ∈ pi1 l ↔ x ∈ l) (h2 : ∀ l x, x ∈ pi2 l ↔ x ∈ l)
    (huniq : uniqueFallback flags files) :
    buildLinks flags pi1 files = buildLinks flags pi2 files := by
  unfold buildLinks
  have main : ∀ (fs : List String) (links : Links),
      (∀ f ∈ fs, f ∈ files) → linksInv files links →
      fs.foldl (linkOne flags pi1) links = fs.foldl (linkOne flags pi2) links := by
    intro fs
    induction fs with
    | nil => intro links _ _; rfl
    | cons f rest ih =>
      intro links hfs hinv
      have hf : f ∈ files := hfs f (List.mem_cons_self _ _)
      have heq := linkOne_eq flags pi1 pi2 files links f h1 h2 hf hinv huniq
      simp only [List.foldl_cons]
      rw [heq]
      exact ih (linkOne flags pi2 links f)
        (fun x hx => hfs x (List.mem_cons_of_mem _ hx))
        (heq ▸ linkOne_inv flags pi1 files links f hf hinv)
  exact main files (scanImages flags files) (fun a ha => ha)
    (scanImages_inv flags files)

/-- Under unique fallback matches, a directory's pass-two output is
independent of the map iteration order. -/
theorem passTwoDir_eq (flags : ImportFlags) (pi1 pi2 : List String → List String)
    (t : Tree) (files : List String)
    (h1 : ∀ l x, x ∈ pi1 l ↔ x ∈ l) (h2 : ∀ l x, x ∈ pi2 l ↔ x ∈ l)
    (huniq : uniqueFallback flags files) :
    passTwoDir flags pi1 t files = passTwoDir flags pi2 t files := by
  unfold passTwoDir
  rw [buildLinks_eq flags pi1 pi2 files h1 h2 huniq]

/-- Lift of `passTwoDir_eq` over a tree's directory list. -/
theorem passTwoDirs_eq (flags : ImportFlags) (pi1 pi2 : List String → List String)
    (t : Tree) (cat : Catalog)
    (h1 : ∀ l x, x ∈ pi1 l ↔ x ∈ l) (h2 : ∀ l x, x ∈ pi2 l ↔ x ∈ l)
    (huniq : ∀ q ∈ cat, uniqueFallback flags q.2) :
    ∀ dirs, passTwoDirs flags pi1 t cat dirs = passTwoDirs flags pi2 t cat dirs := by
  intro dirs
  induction dirs with
  | nil => rfl
  | cons dir rest ih =>
    unfold passTwoDirs
    dsimp only
    cases hlk : lookupA cat dir with
    | none =>
      dsimp only [Option.getD]
      rw [if_pos (show ([] : List String).isEmpty = true from rfl),
          if_pos (show ([] : List String).isEmpty = true from rfl)]
      exact ih
    | some files =>
      have hu := huniq (dir, files) (lookupA_mem cat dir files hlk)
      dsimp only [Option.getD]
      rw [passTwoDir_eq flags pi1 pi2 t files h1 h2 hu, ih]

/-- Lift of `passTwoDirs_eq` over all trees. -/
theorem passTwoAll_eq (flags : ImportFlags) (pi1 pi2 : List String → List String)
    (h1 : ∀ l x, x ∈ pi1 l ↔ x ∈ l) (h2 : ∀ l x, x ∈ pi2 l ↔ x ∈ l) :
    ∀ pairs, (∀ p ∈ pairs, ∀ q ∈ p.2, uniqueFallback flags q.2) →
      passTwoAll flags pi1 pairs = passTwoAll flags pi2 pairs := by
  intro pairs
  induction pairs with
  | nil => intro _; rfl
  | cons p rest ih =>
    intro hu
    unfold passTwoAll
    dsimp only
    rw [show passTwoTree flags pi1 p.1 p.2 = passTwoTree flags pi2 p.1 p.2 from by
      unfold passTwoTree
      exact passTwoDirs_eq flags pi1 pi2 p.1 p.2 h1 h2
        (fun q hq => hu p (List.mem_cons_self _ _) q hq) _,
      ih (fun q hq r hr => hu q (List.mem_cons_of_mem _ hq) r hr)]

/-! ### Claim theorems -/

/-- Claim C1 (code bug in the source): when a non-image file classified as
video has a link-set entry keyed exactly by its base (`clip.jpg` for
`clip.jpg.MP4`), the source attaches the video to that entry's `sidecar`
field (`image.sidecar = file` under `case metadata.TypeVideo`), not to its
`video` field, so the directory `[clip.jpg, clip.jpg.MP4]` produces a
`None` group carrying the video as its sidecar instead of the motion-photo
pairing the claim (and the surrounding code's own comment) describes. -/
theorem C1_video_exact_key_attached_as_sidecar_not_video :
    buildLinks baseFlags (fun l => l) ["clip.jpg", "clip.jpg.MP4"] =
      [("clip.jpg", { image := "clip.jpg", video := "", sidecar := "clip.jpg.MP4" })] ∧
    (Browse baseFlags (fun l => l) [mkTree ["clip.jpg", "clip.jpg.MP4"]]).toOption.map
        (fun r => r.groups) =
      some [{ kind := GroupKind.none,
              assets := [{ fileName := "clip.jpg", title := "clip.jpg",
                           fileSize := 100, dateTaken := 0 }],
              coverIndex := 0, sideCar := some "clip.jpg.MP4", albums := [] }] := by
  exact ⟨by decide, by decide⟩

/-- Claim C6: a file that passes metadata read and stat but whose derived
date falls outside a configured date range is released (`closed`), a
discard event with reason "asset outside date range" is recorded, and
neither a handle nor an error is returned. -/
theorem C6_date_range_soft_exclusion (flags : ImportFlags) (t : Tree)
    (name : String) (dt : Int) (sz : Nat)
    (hm : t.readMeta name = .ok dt) (hs : t.stat name = .ok sz)
    (hset : flags.dateRangeSet = true) (hout : flags.dateInRange dt = false) :
    assetFromFile flags t name =
      { events := [⟨EvKind.discoveredDiscarded, name, some "asset outside date range"⟩],
        asset := Option.none, err := Option.none, closed := true } := by
  unfold assetFromFile
  rw [hm, hs]
  simp [hset, hout]

/-- Witness for C6 at a concrete input: `v.mp4` of `oldVideoTree` has date
-5, outside `flagsDR`'s range. -/
theorem C6_witness :
    assetFromFile flagsDR oldVideoTree "v.mp4" =
      { events := [⟨EvKind.discoveredDiscarded, "v.mp4", some "asset outside date range"⟩],
        asset := Option.none, err := Option.none, closed := true } :=
  C6_date_range_soft_exclusion flagsDR oldVideoTree "v.mp4" (-5) 100
    rfl rfl (by decide) (by decide)

/-- Claim C7: construction with both the fixed import-into-album override
and a non-None album mode fails with an error (the check is the first
statement of `NewLocalFiles`, before any tree is touched); with at most one
of the two set, construction succeeds provided exif-tool initialization
does not fail. -/
theorem C7_conflicting_album_config (flags : ImportFlags)
    (exifInit : Except String Unit) :
    (flags.importIntoAlbum ≠ "" → flags.usePathAsAlbumName ≠ FolderMode.none →
       NewLocalFiles flags exifInit =
         .error "cannot use both --into-album and --folder-as-album") ∧
    ((flags.importIntoAlbum = "" ∨ flags.usePathAsAlbumName = FolderMode.none) →
       (flags.useExifTool = true → exifInit = .ok ()) →
       NewLocalFiles flags exifInit = .ok ()) := by
  constructor
  · intro h1 h2
    unfold NewLocalFiles
    rw [if_pos ⟨h1, h2⟩]
  · intro h hex
    have hcond : ¬ (flags.importIntoAlbum ≠ "" ∧
        flags.usePathAsAlbumName ≠ FolderMode.none) := by
      rcases h with h | h
      · exact fun hc => hc.1 h
      · exact fun hc => hc.2 h
    unfold NewLocalFiles
    rw [if_neg hcond]
    cases hu : flags.useExifTool
    · simp
    · simp [hex hu]

/-- Witness for C7: `flagsBoth` is rejected, `baseFlags` is accepted. -/
theorem C7_witness :
    NewLocalFiles flagsBoth (.ok ()) =
      .error "cannot use both --into-album and --folder-as-album" ∧
    NewLocalFiles baseFlags (.ok ()) = .ok () := by
  constructor
  · exact (C7_conflicting_album_config flagsBoth (.ok ())).1 (by decide) (by decide)
  · exact (C7_conflicting_album_config baseFlags (.ok ())).2 (Or.inl rfl) (fun _ => rfl)

/-- Counterexample to claim C4: the discard event the source records for an
ignored sidecar carries reason string "sidecar file ignored"; at the
concrete input `a.xmp` under `flagsIgnoreSC` no event at all carries the
claimed reason string "sidecar ignored". -/
theorem C4_counterexample :
    ((p1Walk flagsIgnoreSC [WalkEntry.dir ".", WalkEntry.file "a.xmp"] [] [] []).2 =
      [⟨EvKind.discoveredSidecar, "a.xmp", Option.none⟩,
       ⟨EvKind.discoveredDiscarded, "a.xmp", some "sidecar file ignored"⟩]) ∧
    ∀ ev ∈ (p1Walk flagsIgnoreSC [WalkEntry.dir ".", WalkEntry.file "a.xmp"] [] [] []).2,
      ev.info ≠ some "sidecar ignored" := by
  exact ⟨by decide, by decide⟩

/-- Claim C4 as amended: in pass one, a file classified as sidecar while
sidecar-ignoring is configured (and not caught by the banned matcher first)
is discarded with a discard event whose reason string is exactly
"sidecar file ignored", and the file is never added to any candidate
bucket. -/
theorem C4_sidecar_ignored_discard (flags : ImportFlags) (t : Tree)
    (name : String) (cat : Catalog) (evs : List Event)
    (hig : flags.ignoreSideCarFiles = true)
    (hsc : flags.typeFromExt (extOf name) = MediaType.sidecar)
    (hb : flags.bannedFiles name = false)
    (hwalk : passOneFsWalk flags t = .ok (cat, evs)) :
    (flags.recursive = true → WalkEntry.file name ∈ t.entries →
       (⟨EvKind.discoveredDiscarded, name, some "sidecar file ignored"⟩ : Event) ∈ evs) ∧
    ∀ dir files, lookupA cat dir = some files → name ∉ files := by
  unfold passOneFsWalk at hwalk
  cases hw : t.walkErr with
  | some e => rw [hw] at hwalk; cases hwalk
  | none =>
    rw [hw] at hwalk
    injection hwalk with h
    constructor
    · intro hrec hmem
      have hT : ∀ cat' evs', p1File flags cat' evs' name =
          ((p1File flags cat' evs' name).1,
            evs' ++ ([⟨EvKind.discoveredSidecar, name, Option.none⟩] ++
              [⟨EvKind.discoveredDiscarded, name, some "sidecar file ignored"⟩])) := by
        intro cat' evs'
        rw [p1File_sidecar_ignored flags cat' evs' name hb hsc hig]
        simp
      have hc := p1Walk_contains flags hrec name _ hT t.entries [] [] hmem
        ⟨EvKind.discoveredDiscarded, name, some "sidecar file ignored"⟩ (by simp)
      rw [h] at hc
      exact hc
    · intro dir files hlk
      refine p1Walk_bucket flags name (Or.inr ⟨hsc, hig⟩) t.entries [] [] []
        (fun d fs hl => by cases hl) dir files ?_
      rw [h]
      exact hlk

/-- Witness for C4's amended theorem at the concrete tree `[a.xmp]`. -/
theorem C4_witness :
    ((flagsIgnoreSC.recursive = true → WalkEntry.file "a.xmp" ∈ (mkTree ["a.xmp"]).entries →
       (⟨EvKind.discoveredDiscarded, "a.xmp", some "sidecar file ignored"⟩ : Event) ∈
         [⟨EvKind.discoveredSidecar, "a.xmp", Option.none⟩,
          ⟨EvKind.discoveredDiscarded, "a.xmp", some "sidecar file ignored"⟩]) ∧
     ∀ dir files, lookupA [(".", ([] : List String))] dir = some files → "a.xmp" ∉ files) :=
  C4_sidecar_ignored_discard flagsIgnoreSC (mkTree ["a.xmp"]) "a.xmp"
    [(".", [])]
    [⟨EvKind.discoveredSidecar, "a.xmp", Option.none⟩,
     ⟨EvKind.discoveredDiscarded, "a.xmp", some "sidecar file ignored"⟩]
    (by decide) (by decide) (by decide) rfl

/-- Counterexample to claim C2: in `failMetaTree` the metadata read of the
primary image `a.jpg` fails hard, yet `Browse` still returns success — the
`.toOption` being `some` shows the top-level call surfaced no error; the
failure is visible only as a logged error event and the closed (aborted)
stream, which the caller cannot distinguish from a successful scan by the
return value. -/
theorem C2_counterexample :
    (Browse baseFlags (fun l => l) [failMetaTree]).toOption =
      some { events := [⟨EvKind.discoveredImage, "a.jpg", Option.none⟩,
                        ⟨EvKind.error, "a.jpg", some "metadata: boom"⟩],
             groups := [], aborted := true } := by decide

/-- Claim C2 as amended: a metadata-read or stat failure on a primary asset
aborts the scan — the entry emits no group, an error event for the file is
recorded, and no further entry of the directory is processed — but the
error is only logged, never surfaced through the top-level `Browse` return
value: whenever every tree enumerates successfully, `Browse` returns
success regardless of any materialization failure. -/
theorem C2_amended (flags : ImportFlags) (t : Tree) (linked : fileLinks) (e : String)
    (hi : linked.image ≠ "")
    (hS : assetFromFile flags t linked.image = { err := some e, closed := true }) :
    (resolveEntry flags t linked).abort = true ∧
    (resolveEntry flags t linked).group = Option.none ∧
    (⟨EvKind.error, linked.image, some e⟩ : Event) ∈ (resolveEntry flags t linked).events ∧
    (∀ links rest key, (lookupA links key).getD {} = linked →
       processEntries flags t links (key :: rest) =
         ((resolveEntry flags t linked).events, [], true)) ∧
    (∀ pi trees, (∀ tr ∈ trees, tr.walkErr = Option.none) →
       ∃ res, Browse flags pi trees = .ok res) := by
  have hR : resolveEntry flags t linked =
      { events := [] ++ errFn linked.image (some e), abort := true } := by
    by_cases hv : linked.video = ""
    · exact resolveEntry_i_ierr flags t linked e hi hv hS
    · exact resolveEntry_iv_ierr flags t linked e hi hv hS
  refine ⟨by rw [hR], by rw [hR], by rw [hR]; simp [errFn], ?_, ?_⟩
  · intro links rest key hlk
    unfold processEntries
    rw [hlk]
    simp [hR]
  · intro pi trees h
    obtain ⟨pr, hpr⟩ := browseP1_ok flags trees h
    unfold Browse
    rw [hpr]
    exact ⟨_, rfl⟩

/-- Witness for C2's amended theorem at a concrete input. -/
theorem C2_witness :
    (resolveEntry baseFlags failMetaTree { image := "a.jpg" }).abort = true ∧
    (resolveEntry baseFlags failMetaTree { image := "a.jpg" }).group = Option.none ∧
    (⟨EvKind.error, "a.jpg", some "metadata: boom"⟩ : Event) ∈
      (resolveEntry baseFlags failMetaTree { image := "a.jpg" }).events ∧
    (∀ links rest key, (lookupA links key).getD {} = ({ image := "a.jpg" } : fileLinks) →
       processEntries baseFlags failMetaTree links (key :: rest) =
         ((resolveEntry baseFlags failMetaTree { image := "a.jpg" }).events, [], true)) ∧
    (∀ pi trees, (∀ tr ∈ trees, tr.walkErr = Option.none) →
       ∃ res, Browse baseFlags pi trees = .ok res) :=
  C2_amended baseFlags failMetaTree { image := "a.jpg" } "metadata: boom"
    (by decide) rfl

/-- Claim C5: for an entry with both image and video where the image
materializes, a hard error on the companion video yields an error event for
the video and a `None` group holding only the image handle, while a
materializing video yields a MotionPhoto group with handles
`[image, video]`. -/
theorem C5_companion_video_outcomes (flags : ImportFlags) (t : Tree)
    (linked : fileLinks) (a : LocalAssetFile)
    (hi : linked.image ≠ "") (hv : linked.video ≠ "")
    (ha : (assetFromFile flags t linked.image).asset = some a) :
    (∀ e, (assetFromFile flags t linked.video).err = some e →
       ∃ g, (resolveEntry flags t linked).group = some g ∧
         g.kind = GroupKind.none ∧ g.assets = [a] ∧
         (⟨EvKind.error, linked.video, some e⟩ : Event) ∈
           (resolveEntry flags t linked).events) ∧
    (∀ i, (assetFromFile flags t linked.video).asset = some i →
       ∃ g, (resolveEntry flags t linked).group = some g ∧
         g.kind = GroupKind.motionPhoto ∧ g.assets = [a, i]) := by
  rcases assetFromFile_shape flags t linked.image with ⟨e0, hS⟩ | hS | ⟨sz, dt, hS⟩ <;>
    rw [hS] at ha
  · simp at ha
  · simp at ha
  · simp at ha
    subst ha
    constructor
    · intro e he
      rcases assetFromFile_shape flags t linked.video with ⟨e2, hV⟩ | hV | ⟨sz2, dt2, hV⟩ <;>
        rw [hV] at he <;> simp at he
      rw [he] at hV
      have hR := resolveEntry_iv_verr flags t linked _ e hi hv hS hV
      refine ⟨_, by rw [hR], (finishGroup_preserves _ _ _ _ _).1,
        (finishGroup_preserves _ _ _ _ _).2, ?_⟩
      rw [hR]
      simp [errFn]
    · intro i hii
      rcases assetFromFile_shape flags t linked.video with ⟨e2, hV⟩ | hV | ⟨sz2, dt2, hV⟩ <;>
        rw [hV] at hii <;> simp at hii
      subst hii
      have hR := resolveEntry_iv_vok flags t linked _ _ hi hv hS hV
      exact ⟨_, by rw [hR], (finishGroup_preserves _ _ _ _ _).1,
        (finishGroup_preserves _ _ _ _ _).2⟩

/-- Witness for C5 at a concrete input: in `badVideoTree` the image
materializes and the video's metadata read fails hard. -/
theorem C5_witness :
    ∃ g, (resolveEntry baseFlags badVideoTree
        { image := "a.jpg", video := "v.mp4" }).group = some g ∧
      g.kind = GroupKind.none ∧
      g.assets = [{ fileName := "a.jpg", title := "a.jpg", fileSize := 100, dateTaken := 0 }] ∧
      (⟨EvKind.error, "v.mp4", some "bad video"⟩ : Event) ∈
        (resolveEntry baseFlags badVideoTree
          { image := "a.jpg", video := "v.mp4" }).events :=
  (C5_companion_video_outcomes baseFlags badVideoTree
      { image := "a.jpg", video := "v.mp4" }
      { fileName := "a.jpg", title := "a.jpg", fileSize := 100, dateTaken := 0 }
      (by decide) (by decide) rfl).1 "bad video" rfl

/-- Claim C10: for an entry with both image and video where the image
materializes and the video is soft-excluded by the date-range filter (no
handle, no error), the group silently degrades to kind `None` holding only
the image, no error event is emitted, and only the materializer's own
discard event with reason "asset outside date range" is recorded. -/
theorem C10_soft_excluded_video_degrades_silently (flags : ImportFlags)
    (t : Tree) (linked : fileLinks) (a : LocalAssetFile)
    (hi : linked.image ≠ "") (hv : linked.video ≠ "")
    (ha : (assetFromFile flags t linked.image).asset = some a)
    (hsoft : assetFromFile flags t linked.video =
      { events := [⟨EvKind.discoveredDiscarded, linked.video,
                    some "asset outside date range"⟩],
        closed := true }) :
    ∃ g, (resolveEntry flags t linked).group = some g ∧
      g.kind = GroupKind.none ∧ g.assets = [a] ∧
      (⟨EvKind.discoveredDiscarded, linked.video,
        some "asset outside date range"⟩ : Event) ∈
        (resolveEntry flags t linked).events ∧
      ∀ e ∈ (resolveEntry flags t linked).events, e.kind ≠ EvKind.error := by
  rcases assetFromFile_shape flags t linked.image with ⟨e0, hS⟩ | hS | ⟨sz, dt, hS⟩ <;>
    rw [hS] at ha
  · simp at ha
  · simp at ha
  · simp at ha
    subst ha
    have hR := resolveEntry_iv_vsoft flags t linked _ _ _ hi hv hS hsoft
    refine ⟨_, by rw [hR], (finishGroup_preserves _ _ _ _ _).1,
      (finishGroup_preserves _ _ _ _ _).2, ?_, ?_⟩
    · rw [hR]
      simp [errFn]
    · rw [hR]
      intro e he
      simp [errFn] at he
      rcases he with he | he
      · rw [he]
        intro hk
        cases hk
      · have := finishGroup_events flags t.name _ linked _ e he
        rw [this]
        intro hk
        cases hk

/-- Witness for C10 at a concrete input: in `oldVideoTree` under `flagsDR`
the image is in range and the video's date -5 is outside the range. -/
theorem C10_witness :
    ∃ g, (resolveEntry flagsDR oldVideoTree
        { image := "a.jpg", video := "v.mp4" }).group = some g ∧
      g.kind = GroupKind.none ∧
      g.assets = [{ fileName := "a.jpg", title := "a.jpg", fileSize := 100, dateTaken := 0 }] ∧
      (⟨EvKind.discoveredDiscarded, "v.mp4",
        some "asset outside date range"⟩ : Event) ∈
        (resolveEntry flagsDR oldVideoTree
          { image := "a.jpg", video := "v.mp4" }).events ∧
      ∀ e ∈ (resolveEntry flagsDR oldVideoTree
          { image := "a.jpg", video := "v.mp4" }).events, e.kind ≠ EvKind.error :=
  C10_soft_excluded_video_degrades_silently flagsDR oldVideoTree
    { image := "a.jpg", video := "v.mp4" }
    { fileName := "a.jpg", title := "a.jpg", fileSize := 100, dateTaken := 0 }
    (by decide) (by decide) rfl rfl

/-- Claim C9: a file matched by a banned-name pattern in pass one receives
a discard event with reason "banned file" (whenever the walk visits it), is
never added to any candidate bucket of any tree's catalog, and consequently
never appears in any emitted AssetGroup — neither among its asset handles
nor as its sidecar reference. -/
theorem C9_banned_file_never_in_groups (flags : ImportFlags)
    (pi : List String → List String) (trees : List Tree) (name : String)
    (res : BrowseRes)
    (hb : flags.bannedFiles name = true)
    (hres : Browse flags pi trees = .ok res) :
    (∀ t ∈ trees, flags.recursive = true → WalkEntry.file name ∈ t.entries →
       (⟨EvKind.discoveredDiscarded, name, some "banned file"⟩ : Event) ∈ res.events) ∧
    (∀ t ∈ trees, ∀ dir files, lookupA (catalogOf flags t) dir = some files →
       name ∉ files) ∧
    (∀ g ∈ res.groups, (∀ x ∈ g.assets, x.fileName ≠ name) ∧
       g.sideCar ≠ some name) := by
  unfold Browse at hres
  cases hbp : browseP1 flags trees with
  | error e => rw [hbp] at hres; cases hres
  | ok pr =>
    rw [hbp] at hres
    obtain ⟨pairs, evs1⟩ := pr
    cases hres
    refine ⟨?_, ?_, ?_⟩
    · intro t ht hrec hmem
      obtain ⟨cat, evst, hok, hsub⟩ := browseP1_tree_events flags trees pairs evs1 hbp t ht
      unfold passOneFsWalk at hok
      cases hw : t.walkErr with
      | some e => rw [hw] at hok; cases hok
      | none =>
        rw [hw] at hok
        injection hok with hok
        have hT : ∀ cat' evs', p1File flags cat' evs' name =
            ((p1File flags cat' evs' name).1,
              evs' ++ [⟨EvKind.discoveredDiscarded, name, some "banned file"⟩]) := by
          intro cat' evs'
          rw [p1File_banned flags cat' evs' name hb]
        have hc := p1Walk_contains flags hrec name _ hT t.entries [] [] hmem
          ⟨EvKind.discoveredDiscarded, name, some "banned file"⟩ (by simp)
        rw [hok] at hc
        simp only [BrowseRes.events]
        exact List.mem_append_left _ (hsub _ hc)
    · intro t ht dir files hlk
      unfold catalogOf passOneFsWalk at hlk
      cases hw : t.walkErr with
      | some e =>
        rw [hw] at hlk
        simp [lookupA] at hlk
      | none =>
        rw [hw] at hlk
        exact p1Walk_bucket flags name (Or.inl hb) t.entries [] [] []
          (fun d fs hl => by cases hl) dir files hlk
    · intro g hg
      simp only [BrowseRes.groups] at hg
      obtain ⟨p, hp, dir, files, hlk, hmem⟩ := passTwoAll_groups flags pi pairs g hg
      obtain ⟨-, evst, hok, -⟩ := browseP1_pairs flags trees pairs evs1 hbp p hp
      unfold passOneFsWalk at hok
      cases hw : p.1.walkErr with
      | some e => rw [hw] at hok; cases hok
      | none =>
        rw [hw] at hok
        injection hok with hok
        have habsent : name ∉ files := by
          refine p1Walk_bucket flags name (Or.inl hb) p.1.entries [] [] []
            (fun d fs hl => by cases hl) dir files ?_
          rw [show (p1Walk flags p.1.entries [] [] []).1 = p.2 from
            congrArg Prod.fst hok]
          exact hlk
        constructor
        · intro x hx hxn
          exact habsent (hxn ▸ passTwoDir_assets flags pi p.1 files g hmem x hx)
        · intro hsc
          exact habsent (passTwoDir_sideCar flags pi p.1 files g hmem name hsc)

/-- Witness for C9 at a concrete input: `evil.jpg` is banned under
`flagsBanned`; it gets its discard event, is in no bucket, and the one
emitted group holds `ok.jpg` with sidecar `ok.jpg.xmp` — neither of which
is the banned file. -/
theorem C9_witness :
    (∀ t ∈ [mkTree ["evil.jpg", "ok.jpg", "ok.jpg.xmp"]],
       flagsBanned.recursive = true →
       WalkEntry.file "evil.jpg" ∈ t.entries →
       (⟨EvKind.discoveredDiscarded, "evil.jpg", some "banned file"⟩ : Event) ∈
         (BrowseRes.mk
           [⟨EvKind.discoveredDiscarded, "evil.jpg", some "banned file"⟩,
            ⟨EvKind.discoveredImage, "ok.jpg", Option.none⟩,
            ⟨EvKind.discoveredSidecar, "ok.jpg.xmp", Option.none⟩,
            ⟨EvKind.associatedMetadata, "ok.jpg", some "ok.jpg.xmp"⟩]
           [{ kind := GroupKind.none,
              assets := [{ fileName := "ok.jpg", title := "ok.jpg",
                           fileSize := 100, dateTaken := 0 }],
              coverIndex := 0, sideCar := some "ok.jpg.xmp", albums := [] }]
           false).events) ∧
    (∀ t ∈ [mkTree ["evil.jpg", "ok.jpg", "ok.jpg.xmp"]], ∀ dir files,
       lookupA (catalogOf flagsBanned t) dir = some files → "evil.jpg" ∉ files) ∧
    (∀ g ∈ (BrowseRes.mk
           [⟨EvKind.discoveredDiscarded, "evil.jpg", some "banned file"⟩,
            ⟨EvKind.discoveredImage, "ok.jpg", Option.none⟩,
            ⟨EvKind.discoveredSidecar, "ok.jpg.xmp", Option.none⟩,
            ⟨EvKind.associatedMetadata, "ok.jpg", some "ok.jpg.xmp"⟩]
           [{ kind := GroupKind.none,
              assets := [{ fileName := "ok.jpg", title := "ok.jpg",
                           fileSize := 100, dateTaken := 0 }],
              coverIndex := 0, sideCar := some "ok.jpg.xmp", albums := [] }]
           false).groups,
       (∀ x ∈ g.assets, x.fileName ≠ "evil.jpg") ∧
       g.sideCar ≠ some "evil.jpg") :=
  C9_banned_file_never_in_groups flagsBanned (fun l => l)
    [mkTree ["evil.jpg", "ok.jpg", "ok.jpg.xmp"]] "evil.jpg" _ (by decide) rfl

/-- Claim C8: under Path mode with separator `#` on tree `Lib`, asset
`a/b/c.jpg` receives album title `Lib#a#b`; under Folder mode it receives
`b`; a tree-root asset receives `Lib` under Folder mode and `Lib` alone
under Path mode. -/
theorem C8_album_naming :
    albumsFor flagsPathMode "Lib" "a/b/c.jpg" = [{ path := "a/b", title := "Lib#a#b" }] ∧
    albumsFor flagsFolderMode "Lib" "a/b/c.jpg" = [{ path := "a/b/c.jpg", title := "b" }] ∧
    albumsFor flagsFolderMode "Lib" "c.jpg" = [{ path := "c.jpg", title := "Lib" }] ∧
    albumsFor flagsPathMode "Lib" "c.jpg" = [{ path := ".", title := "Lib" }] := by
  exact ⟨by decide, by decide, by decide, by decide⟩

/-- Counterexample to claim C3: the fallback matching ranges over a Go map,
whose iteration order is not fixed across runs.  Both the identity and the
reversing enumeration are legitimate orders (they enumerate exactly the
keys, per the last two conjuncts), yet on the directory
`[a.jpg, a.png, a.xmp]` the two runs attach the sidecar `a.xmp` to
different images and so emit different groups. -/
theorem C3_counterexample :
    (Browse baseFlags (fun l => l) [mkTree ["a.jpg", "a.png", "a.xmp"]]).toOption ≠
      (Browse baseFlags List.reverse [mkTree ["a.jpg", "a.png", "a.xmp"]]).toOption ∧
    (∀ (l : List String) (x : String), x ∈ (fun l => l : List String → List String) l ↔ x ∈ l) ∧
    (∀ (l : List String) (x : String), x ∈ l.reverse ↔ x ∈ l) := by
  refine ⟨by decide, fun l x => Iff.rfl, fun l x => List.mem_reverse⟩

/-- Claim C3 as amended: trees are iterated in their given order and
directories in lexicographic order, and the scan is a function of the map
iteration order used by the fallback matching; whenever every bucket has at
most one possible fallback match per sidecar/video (`uniqueFallback`), two
runs with any two legitimate iteration orders emit identical events and
groups.  (Without that condition the resolution may differ between runs,
per the counterexample.) -/
theorem C3_amended (flags : ImportFlags) (pi1 pi2 : List String → List String)
    (trees : List Tree)
    (h1 : ∀ l x, x ∈ pi1 l ↔ x ∈ l) (h2 : ∀ l x, x ∈ pi2 l ↔ x ∈ l)
    (huniq : ∀ t ∈ trees, ∀ q ∈ catalogOf flags t, uniqueFallback flags q.2) :
    Browse flags pi1 trees = Browse flags pi2 trees := by
  unfold Browse
  cases hbp : browseP1 flags trees with
  | error e => rfl
  | ok pr =>
    obtain ⟨pairs, evs1⟩ := pr
    have hpairs := browseP1_pairs flags trees pairs evs1 hbp
    have hall : ∀ p ∈ pairs, ∀ q ∈ p.2, uniqueFallback flags q.2 := by
      intro p hp q hq
      obtain ⟨hmem, evst, hok, -⟩ := hpairs p hp
      have hcat : catalogOf flags p.1 = p.2 := by
        unfold catalogOf
        rw [hok]
      rw [← hcat] at hq
      exact huniq p.1 hmem q hq
    dsimp only
    rw [passTwoAll_eq flags pi1 pi2 h1 h2 pairs hall]

/-- Witness for C3's amended theorem: on the unique-match directory
`[img.jpg, img.jpg.xmp]`, identity and reversed iteration orders give the
same scan result. -/
theorem C3_witness :
    Browse baseFlags (fun l => l) [mkTree ["img.jpg", "img.jpg.xmp"]] =
      Browse baseFlags List.reverse [mkTree ["img.jpg", "img.jpg.xmp"]] :=
  C3_amended baseFlags (fun l => l) List.reverse [mkTree ["img.jpg", "img.jpg.xmp"]]
    (fun l x => Iff.rfl) (fun l x => List.mem_reverse) (by decide)

end Folder
